import Mathlib

/-!
Verification of the numeric core of `seisplot.py` (a simple seismic plotter).

The source is shallowly embedded over exact rationals (`ℚ`): every numeric
definition below is translated line-by-line from `src/seisplot.py`, with
Python / numpy runtime faults (ZeroDivisionError, ValueError, NameError,
OverflowError) made explicit as `Except` error values.  An amplitude matrix
of shape (nsamples, ntraces) is represented by its list of columns
(`List (List ℚ)`, column j = the sample sequence of trace j), matching how
the source builds it (`data[:, i] = trace.data`); the flattening order of
`np.percentile` / `np.amax` / `np.ravel` does not matter to any of the
quantities modelled, since they are permutation invariant.
-/

namespace Seisplot

/-- Python `int(q)` applied to a float: truncation toward zero. -/
def truncQ (q : ℚ) : ℤ := if 0 ≤ q then ⌊q⌋ else ⌈q⌉

/-- Embedding of `np.amax` on a flattened nonempty array.  numpy raises on an
empty array; all call sites below guard the empty case explicitly, so the
value returned for `[]` here is irrelevant. -/
def npAmax : List ℚ → ℚ
  | [] => 0
  | a :: l => l.foldl max a

/-- Embedding of `np.amin` on a flattened nonempty array (see `npAmax`). -/
def npAmin : List ℚ → ℚ
  | [] => 0
  | a :: l => l.foldl min a

/-- Embedding of `np.percentile(a, q)` with the default linear interpolation:
sort the flattened data, let `h = q/100 * (n-1)`, and interpolate between the
entries at indices `⌊h⌋` and `min (⌊h⌋+1) (n-1)`.  Defined for nonempty input
and `0 ≤ q ≤ 100` (numpy raises otherwise; call sites guard this). -/
def npPercentile (l : List ℚ) (q : ℚ) : ℚ :=
  let b := List.insertionSort (· ≤ ·) l
  let n := b.length
  let h : ℚ := q / 100 * ((n : ℚ) - 1)
  let i : ℕ := ⌊h⌋.toNat
  let lo := b.getD i 0
  let hi := b.getD (min (i + 1) (n - 1)) 0
  lo + (h - (i : ℚ)) * (hi - lo)

/-- Embedding of `np.fft.fftfreq(n, d)`: frequencies
`[0, 1, ..., ⌈n/2⌉-1, -⌊n/2⌋, ..., -1] / (n*d)` in that order. -/
def npFftfreq (n : ℕ) (d : ℚ) : List ℚ :=
  (List.range n).map fun k =>
    if k < (n + 1) / 2 then (k : ℚ) / (n * d) else ((k : ℚ) - n) / (n * d)

/-- Helper for Python extended slicing `l[::s]`: `sliceEveryFrom s l c` keeps
the elements at positions `c, c+s, c+2s, ...` of `l` (the counter `c` counts
down to the next kept element). -/
def sliceEveryFrom (s : ℕ) : List α → ℕ → List α
  | [], _ => []
  | a :: rest, 0 => a :: sliceEveryFrom s rest (s - 1)
  | _ :: rest, Nat.succ c => sliceEveryFrom s rest c

/-- Embedding of the Python slice `l[::s]` for a step `s ≥ 1`: elements at
indices `0, s, 2s, ...`.  This is both `data[:, ::skip]` (on the column list)
and `np.arange(ntraces)[::skip]` in `wigplot`. -/
def pyStepSlice (s : ℕ) (l : List α) : List α := sliceEveryFrom s l 0

/-- Flattening of the column-list representation of the amplitude matrix,
used wherever the source applies `np.percentile` / `np.amax` / `np.amin` /
`np.ravel` to the whole 2-D array (all permutation invariant, so the
flattening order is immaterial). -/
def flattenMat (data : List (List ℚ)) : List ℚ := data.flatten

/-- One wiggle path produced by `wigplot` for one displayed trace: the
polyline `ax.plot(gain * trace / sc + x, tbase, ...)` paired with the fill
region `ax.fill_betweenx(tbase, gain * trace / sc + x, x2=x, ...)`, whose
vertical boundary is the baseline `x`. -/
structure WigglePath where
  xvals : List ℚ
  tvals : List ℚ
  baseline : ℚ
  deriving DecidableEq, Repr

/-- Embedding of line 40 of the source, the normalization factor computed
inside `wigplot`: `sc = np.percentile(data, perc)` — the percentile of the
raw signed data, not of its absolute values. -/
def wigNormFactor (data : List (List ℚ)) (perc : ℚ) : ℚ :=
  npPercentile (flattenMat data) perc

/-- Embedding of `wigplot(ax, data, tbase, ntraces, skip=1, perc=98.0,
gain=1.0)` (source lines 35–47): `wigdata = data[:, ::skip]`,
`xpos = np.arange(ntraces)[::skip]`, and one plotted/filled path per pair of
`zip(xpos, np.transpose(wigdata))`.  In the source `perc` defaults to `98.0`
and `sc = 0` would produce silent numpy nan/inf values rather than a fault;
theorems that inspect `xvals` therefore carry the relevant nonzero
hypotheses, while the baselines are division-free. -/
def wigplot (data : List (List ℚ)) (tbase : List ℚ) (ntraces : ℕ)
    (skip : ℕ) (perc : ℚ) (gain : ℚ) : List WigglePath :=
  let sc := wigNormFactor data perc
  let wigdata := pyStepSlice skip data
  let xpos := pyStepSlice skip (List.range ntraces)
  (xpos.zip wigdata).map fun p =>
    { xvals := p.2.map fun v => gain * v / sc + (p.1 : ℚ)
      tvals := tbase
      baseline := (p.1 : ℚ) }

/-- Embedding of line 272 of the source:
`ax = wigplot(ax, data, tbase, ntraces, skip=cfg['skip'], gain=cfg['gain'])`.
`main` passes neither a percentile nor the clip value it computed on line
201, so `wigplot`'s own default `perc = 98.0` applies. -/
def mainWiggleCall (data : List (List ℚ)) (tbase : List ℚ) (ntraces skip : ℕ)
    (gain : ℚ) : List WigglePath :=
  wigplot data tbase ntraces skip 98 gain

/-- One trace record as consumed by `main` (source lines 180–186): the header
fields read in the loop plus the sample array `trace.data`.  The header
sample count and the actual length of `samples` are kept separate, exactly as
in the source. -/
structure TraceRecord where
  nsamples : ℕ
  dt : ℚ
  elev : ℤ
  esp : ℤ
  ens : ℤ
  tsq : ℤ
  samples : List ℚ
  deriving DecidableEq, Repr

/-- Python runtime faults that the ingestion part of `main` can hit: the
`NameError` from using the loop variables `nsamples` / `dt` after a loop over
an empty trace list, and the `ValueError` from a shape-mismatched numpy
column assignment `data[:, i] = trace.data`. -/
inductive IngestFault where
  | nameError
  | valueError
  deriving DecidableEq, Repr

/-- The values the ingestion part of `main` (lines 177–210) has produced once
it reaches the `Notice` calls: the column-major amplitude matrix and the
scalars / metadata lists read from the traces. -/
structure IngestResult where
  cols : List (List ℚ)
  ntraces : ℕ
  nsamples : ℕ
  dt : ℚ
  elev : List ℤ
  esp : List ℤ
  ens : List ℤ
  tsq : List ℤ
  deriving DecidableEq, Repr

/-- Embedding of the numpy column assignment `data[:, i] = trace.data` into a
pre-allocated `np.zeros((nsamples, ntraces))` matrix: it succeeds when the
trace length equals `nsamples` (or broadcasts a single sample), and raises a
runtime `ValueError` on any other shape mismatch. -/
def assignColumn (nsamples : ℕ) (samples : List ℚ) :
    Except IngestFault (List ℚ) :=
  if samples.length = nsamples then .ok samples
  else if samples.length = 1 then .ok (List.replicate nsamples (samples.headD 0))
  else .error .valueError

/-- Embedding of the matrix-filling loop of `main` (lines 197–199): the
columns of `np.zeros((nsamples, ntraces))` are assigned one trace at a time
(`assignColumn`), stopping at the first shape-mismatch fault. -/
def buildCols (nsamples : ℕ) : List TraceRecord → Except IngestFault (List (List ℚ))
  | [] => .ok []
  | tr :: rest =>
      match assignColumn nsamples tr.samples with
      | .error e => .error e
      | .ok c =>
        match buildCols nsamples rest with
        | .error e => .error e
        | .ok cs => .ok (c :: cs)

/-- Embedding of the ingestion part of `main` (source lines 177–199).  The
loop `for i, trace in enumerate(section.traces)` overwrites `nsamples` and
`dt` on every iteration, so the values that survive are those of the *last*
trace; no consistency check of any kind is performed.  An empty trace list
leaves `nsamples` unbound, so line 189 raises `NameError`.  The matrix is
then filled column by column (`buildCols`). -/
def mainIngest (traces : List TraceRecord) : Except IngestFault IngestResult :=
  match traces.getLast? with
  | none => .error .nameError
  | some last =>
      (buildCols last.nsamples traces).map
        fun cols =>
          { cols := cols
            ntraces := traces.length
            nsamples := last.nsamples
            dt := last.dt
            elev := traces.map (·.elev)
            esp := traces.map (·.esp)
            ens := traces.map (·.ens)
            tsq := traces.map (·.tsq) }

/-- Embedding of line 201 of the source, the clip value reported by `main`:
`clip_val = np.percentile(data, 99.0)` — the (hard-coded) 99th percentile of
the raw signed flattened matrix. -/
def mainClipVal (data : List (List ℚ)) : ℚ :=
  npPercentile (flattenMat data) 99

/-- An axes rectangle as passed to `fig.add_axes([x, y, width, height])`:
all four coordinates are fractions of the page width / height. -/
structure Rect where
  x : ℚ
  y : ℚ
  width : ℚ
  height : ℚ
  deriving DecidableEq, Repr

/-- The page-geometry quantities computed by `main` (source lines 193–195,
221–249): `wsd`/`hd` are the seismic width and height in inches, `w`/`h` the
page width and height in inches, `ssl` the fractional start of the side
label, and `seismicRect` the axes rectangle of the seismic panel.  `aspect`
(line 195) is computed but never used; with `hd = 0` numpy yields a silent
inf/nan there (no exception, since `hd` is an `np.float64`), modelled as
`none`. -/
structure SeisLayout where
  wsd : ℚ
  hd : ℚ
  aspect : Option ℚ
  w : ℚ
  h : ℚ
  ssl : ℚ
  seismicRect : Rect
  deriving DecidableEq, Repr

/-- Embedding of the page-geometry arithmetic of `main`, translated with the
source constants `wsl = 6`, `mih = 10`, `m = 0.5`, `mt = mb = m`,
`ml = mr = 2*m`, `mm = mr/2` (lines 224–234): `wsd = ntraces / tpi` (193),
`hd = ips * durMs / 1000` (194, with `durMs = amax(tbase) - amin(tbase)`),
`w = ml + wsd + wsl + mr + mm` (238), `h = max(mih, ips*durMs/1000 + mt+mb)`
(240), `ssl = (ml + wsd + mm) / w` (242), and the seismic axes rectangle
`[ml/w, mb/h, wsd/w, (h - mb - mt)/h]` (249). -/
def layoutPure (ntraces : ℕ) (durMs tpi ips : ℚ) : SeisLayout :=
  let wsd : ℚ := (ntraces : ℚ) / tpi
  let hd : ℚ := ips * durMs / 1000
  let aspect : Option ℚ := if hd = 0 then none else some (wsd / hd)
  let wsl : ℚ := 6
  let mih : ℚ := 10
  let m : ℚ := 1 / 2
  let mt := m
  let mb := m
  let ml := 2 * m
  let mr := 2 * m
  let mm := mr / 2
  let w := ml + wsd + wsl + mr + mm
  let h := max mih (ips * durMs / 1000 + mt + mb)
  let ssl := (ml + wsd + mm) / w
  { wsd := wsd, hd := hd, aspect := aspect, w := w, h := h, ssl := ssl
    seismicRect := { x := ml / w, y := mb / h, width := wsd / w
                     height := (h - mb - mt) / h } }

/-- Python runtime fault reachable by the layout arithmetic of `main`:
`ZeroDivisionError`.  No exception class of its own is defined anywhere in
the source — in particular there is no `DegenerateLayoutError`. -/
inductive PyFault where
  | zeroDivision
  deriving DecidableEq, Repr

/-- The layout computation of `main` including its fault behaviour:
`wsd = ntraces / cfg['tpi']` (line 193) raises a `ZeroDivisionError` when
`tpi = 0` (a Python scalar division, unguarded), and `ml / w` (lines
242/249) raises one when the computed page width is zero.  `ips ≤ 0` raises
nothing at all: `wsd / hd` on line 195 is an `np.float64` division, which
silently yields inf/nan. -/
def layoutRun (ntraces : ℕ) (durMs tpi ips : ℚ) :
    Except PyFault SeisLayout :=
  if tpi = 0 then .error .zeroDivision
  else
    let L := layoutPure ntraces durMs tpi ips
    if L.w = 0 then .error .zeroDivision else .ok L

/-- Python / numpy runtime faults reachable by `plot_histogram`: `np.amax`
on an empty array raises, `int(nan)` raises `ValueError`, and `int(inf)`
raises `OverflowError`.  No exception class of its own is defined anywhere in
the source — in particular there is no `DegenerateHistogramError`. -/
inductive HistFault where
  | emptyData
  | valueErrorNaN
  | overflowInf
  deriving DecidableEq, Repr

/-- The numeric outcome of `plot_histogram`: the bin count passed to
`hist(..., bins=...)` and the x-limits `set_xlim(-clip_val, clip_val)`. -/
structure HistSpec where
  bins : ℤ
  xlim : ℚ × ℚ
  deriving DecidableEq, Repr

/-- Embedding of `plot_histogram` (source lines 144–159):
`largest = max(np.amax(data), abs(np.amin(data)))` (note: no `abs` on the
max), `clip_val = np.percentile(data, 99.0)` (signed, recomputed locally),
`bins = int(100.0 / (clip_val / largest))` (truncation, no clamping), and
`set_xlim(-clip_val, clip_val)`.  The fault branches spell out the numpy
arithmetic: with `largest = 0` and `clip_val = 0` the ratio is `0/0 = nan`
and `int(nan)` raises `ValueError`; with `largest = 0` and `clip_val ≠ 0`
(mathematically unreachable, kept for faithfulness) the ratio is `±inf`,
`100.0/±inf = ∓0.0` and the bin count is `0`; with `largest ≠ 0` and
`clip_val = 0` the ratio is exactly `0.0`, `100.0/0.0 = inf` and `int(inf)`
raises `OverflowError`. -/
def plot_histogram (data : List (List ℚ)) : Except HistFault HistSpec :=
  let flat := flattenMat data
  if flat = [] then .error .emptyData
  else
    let largest := max (npAmax flat) |npAmin flat|
    let clip_val := npPercentile flat 99
    if largest = 0 then
      if clip_val = 0 then .error .valueErrorNaN
      else .ok { bins := 0, xlim := (-clip_val, clip_val) }
    else if clip_val = 0 then .error .overflowInf
    else .ok { bins := truncQ (100 / (clip_val / largest))
               xlim := (-clip_val, clip_val) }

/-- The k-th coefficient of the discrete Fourier transform computed by
`scipy.fft` on a real input vector: `X_k = Σ_j x_j · exp(-2πi·j·k/n)`. -/
noncomputable def dftEntry (x : List ℚ) (k : ℕ) : ℂ :=
  ∑ j ∈ Finset.range x.length,
    ((x.getD j 0 : ℚ) : ℂ) *
      Complex.exp (-(2 * Real.pi * Complex.I * j * k) / x.length)

/-- The full DFT vector `fft(x)` (exact mathematical semantics of the
floating-point transform used at source line 95). -/
noncomputable def dft (x : List ℚ) : List ℂ :=
  (List.range x.length).map (dftEntry x)

/-- Embedding of `np.log10` on the nonnegative reals it is applied to here
(magnitudes of DFT coefficients): numpy silently returns `-inf` on `0`
(a `RuntimeWarning`, not an exception), modelled as `⊥ : EReal`. -/
noncomputable def npLog10 (x : ℝ) : EReal :=
  if x = 0 then ⊥ else ((Real.log x / Real.log 10 : ℝ) : EReal)

/-- The two series plotted by `plot_spectrum`: the truncated frequency axis
and the log-power values. -/
structure SpectrumPlot where
  freqs : List ℚ
  power : List EReal

/-- Embedding of `plot_spectrum(spec_ax, data, dt, ...)` (source lines
91–99): `S = abs(fft(data[:, 1]))` — the *second* trace of the matrix —
`faxis = np.fft.fftfreq(len(data[:, 1]), d=dt/10**6)`, and the plot call
`spec_ax.plot(faxis[:len(faxis)//4], np.log10(S[0:len(faxis)//4]), ...)`.
With fewer than two traces the numpy indexing `data[:, 1]` would raise; the
claims quantify over matrices with at least two columns. -/
noncomputable def plot_spectrum (data : List (List ℚ)) (dt : ℚ) :
    SpectrumPlot :=
  let trace := data.getD 1 []
  let S := (dft trace).map (fun z => Complex.abs z)
  let faxis := npFftfreq trace.length (dt / 10 ^ 6)
  { freqs := faxis.take (faxis.length / 4)
    power := (S.take (faxis.length / 4)).map npLog10 }

/-! Helper lemmas about the numeric primitives. -/

theorem le_foldl_max (l : List ℚ) (a : ℚ) : a ≤ l.foldl max a := by
  induction l generalizing a with
  | nil => exact le_refl a
  | cons b l ih => exact le_trans (le_max_left a b) (ih (max a b))

theorem le_foldl_max_of_mem (l : List ℚ) (a x : ℚ) (hx : x ∈ l) :
    x ≤ l.foldl max a := by
  induction l generalizing a with
  | nil => cases hx
  | cons b l ih =>
    rcases List.mem_cons.mp hx with rfl | hx
    · exact le_trans (le_max_right a x) (le_foldl_max l (max a x))
    · exact ih (max a b) hx

theorem foldl_max_mem (l : List ℚ) (a : ℚ) :
    l.foldl max a = a ∨ l.foldl max a ∈ l := by
  induction l generalizing a with
  | nil => exact Or.inl rfl
  | cons b l ih =>
    rcases ih (max a b) with h | h
    · rcases max_choice a b with hm | hm
      · exact Or.inl (by rw [List.foldl_cons, h, hm])
      · exact Or.inr (by rw [List.foldl_cons, h, hm]; exact List.mem_cons_self b l)
    · exact Or.inr (List.mem_cons_of_mem b h)

theorem foldl_min_le (l : List ℚ) (a : ℚ) : l.foldl min a ≤ a := by
  induction l generalizing a with
  | nil => exact le_refl a
  | cons b l ih => exact le_trans (ih (min a b)) (min_le_left a b)

theorem foldl_min_le_of_mem (l : List ℚ) (a x : ℚ) (hx : x ∈ l) :
    l.foldl min a ≤ x := by
  induction l generalizing a with
  | nil => cases hx
  | cons b l ih =>
    rcases List.mem_cons.mp hx with rfl | hx
    · exact le_trans (foldl_min_le l (min a x)) (min_le_right a x)
    · exact ih (min a b) hx

theorem foldl_min_mem (l : List ℚ) (a : ℚ) :
    l.foldl min a = a ∨ l.foldl min a ∈ l := by
  induction l generalizing a with
  | nil => exact Or.inl rfl
  | cons b l ih =>
    rcases ih (min a b) with h | h
    · rcases min_choice a b with hm | hm
      · exact Or.inl (by rw [List.foldl_cons, h, hm])
      · exact Or.inr (by rw [List.foldl_cons, h, hm]; exact List.mem_cons_self b l)
    · exact Or.inr (List.mem_cons_of_mem b h)

theorem le_npAmax_of_mem (l : List ℚ) (x : ℚ) (hx : x ∈ l) : x ≤ npAmax l := by
  match l with
  | [] => cases hx
  | a :: l =>
    rcases List.mem_cons.mp hx with rfl | hx
    · exact le_foldl_max l x
    · exact le_foldl_max_of_mem l a x hx

theorem npAmax_mem (l : List ℚ) (hl : l ≠ []) : npAmax l ∈ l := by
  match l with
  | [] => exact absurd rfl hl
  | a :: l =>
    show l.foldl max a ∈ a :: l
    rcases foldl_max_mem l a with h | h
    · rw [h]
      exact List.mem_cons_self a l
    · exact List.mem_cons_of_mem a h

theorem npAmin_le_of_mem (l : List ℚ) (x : ℚ) (hx : x ∈ l) : npAmin l ≤ x := by
  match l with
  | [] => cases hx
  | a :: l =>
    rcases List.mem_cons.mp hx with rfl | hx
    · exact foldl_min_le l x
    · exact foldl_min_le_of_mem l a x hx

theorem npAmin_mem (l : List ℚ) (hl : l ≠ []) : npAmin l ∈ l := by
  match l with
  | [] => exact absurd rfl hl
  | a :: l =>
    show l.foldl min a ∈ a :: l
    rcases foldl_min_mem l a with h | h
    · rw [h]
      exact List.mem_cons_self a l
    · exact List.mem_cons_of_mem a h

theorem npAmin_le_npAmax (l : List ℚ) (hl : l ≠ []) : npAmin l ≤ npAmax l :=
  le_npAmax_of_mem l (npAmin l) (npAmin_mem l hl)

/-- The percentile of a nonempty list, for a percentage between 0 and 100,
lies between the minimum and the maximum of the list. -/
theorem npPercentile_bounds (l : List ℚ) (q : ℚ) (hl : l ≠ [])
    (h0 : 0 ≤ q) (h1 : q ≤ 100) :
    npAmin l ≤ npPercentile l q ∧ npPercentile l q ≤ npAmax l := by
  have hperm : List.Perm (List.insertionSort (· ≤ ·) l) l := List.perm_insertionSort _ l
  have hsorted : (List.insertionSort (· ≤ ·) l).Sorted (· ≤ ·) :=
    List.sorted_insertionSort _ l
  set b := List.insertionSort (· ≤ ·) l with hb
  have hlen : b.length = l.length := hperm.length_eq
  have hn : 1 ≤ b.length := by
    rw [hlen]
    exact List.length_pos.mpr hl
  set n := b.length with hndef
  set h : ℚ := q / 100 * ((n : ℚ) - 1) with hh
  have hn1 : (1 : ℚ) ≤ (n : ℚ) := by exact_mod_cast hn
  have hfrac0 : (0 : ℚ) ≤ q / 100 := by positivity
  have hfrac1 : q / 100 ≤ 1 := by
    rw [div_le_one (by norm_num)]
    exact h1
  have hh0 : 0 ≤ h := mul_nonneg hfrac0 (by linarith)
  have hhn : h ≤ (n : ℚ) - 1 := by
    calc h ≤ 1 * ((n : ℚ) - 1) := by
              apply mul_le_mul_of_nonneg_right hfrac1 (by linarith)
         _ = (n : ℚ) - 1 := one_mul _
  have hfl0 : 0 ≤ ⌊h⌋ := Int.floor_nonneg.mpr hh0
  set i : ℕ := ⌊h⌋.toNat with hi
  have hiq : (i : ℚ) = (⌊h⌋ : ℚ) := by
    rw [hi]
    exact_mod_cast Int.toNat_of_nonneg hfl0
  have hile : i ≤ n - 1 := by
    have hfl : ⌊h⌋ ≤ (n : ℤ) - 1 := by
      have hff : ⌊h⌋ ≤ ⌊(n : ℚ) - 1⌋ := Int.floor_le_floor hhn
      simpa using hff
    omega
  have hilt : i < n := by omega
  have hjlt : min (i + 1) (n - 1) < n := by omega
  have hij : i ≤ min (i + 1) (n - 1) := by omega
  have hval : npPercentile l q =
      b.getD i 0 + (h - (i : ℚ)) * (b.getD (min (i + 1) (n - 1)) 0 - b.getD i 0) := rfl
  have hlo : b.getD i 0 = b.get ⟨i, hilt⟩ := List.getD_eq_getElem b 0 hilt
  have hhi : b.getD (min (i + 1) (n - 1)) 0 = b.get ⟨min (i + 1) (n - 1), hjlt⟩ :=
    List.getD_eq_getElem b 0 hjlt
  have hmono : b.getD i 0 ≤ b.getD (min (i + 1) (n - 1)) 0 := by
    rw [hlo, hhi]
    exact hsorted.rel_get_of_le hij
  have hlomem : b.getD i 0 ∈ l := by
    rw [hlo]
    exact hperm.mem_iff.mp (b.get_mem _ _)
  have hhimem : b.getD (min (i + 1) (n - 1)) 0 ∈ l := by
    rw [hhi]
    exact hperm.mem_iff.mp (b.get_mem _ _)
  have hf0 : 0 ≤ h - (i : ℚ) := by
    rw [hiq]
    exact sub_nonneg.mpr (Int.floor_le h)
  have hf1 : h - (i : ℚ) ≤ 1 := by
    rw [hiq]
    have hlt := Int.lt_floor_add_one h
    linarith
  constructor
  · have h1' : npAmin l ≤ b.getD i 0 := npAmin_le_of_mem l _ hlomem
    have h2' : 0 ≤ (h - (i : ℚ)) * (b.getD (min (i + 1) (n - 1)) 0 - b.getD i 0) :=
      mul_nonneg hf0 (sub_nonneg.mpr hmono)
    rw [hval]
    linarith
  · have h1' : b.getD (min (i + 1) (n - 1)) 0 ≤ npAmax l := le_npAmax_of_mem l _ hhimem
    have h2' : (h - (i : ℚ)) * (b.getD (min (i + 1) (n - 1)) 0 - b.getD i 0) ≤
        b.getD (min (i + 1) (n - 1)) 0 - b.getD i 0 := by
      nlinarith [sub_nonneg.mpr hmono]
    rw [hval]
    linarith

/-- Indexing into the Python step slice: element `k` of `l[c::s]`-style
slicing (counter form) is element `c + k*s` of `l`. -/
theorem sliceEveryFrom_getElem? (s : ℕ) (hs : 1 ≤ s) (l : List α) (c k : ℕ) :
    (sliceEveryFrom s l c)[k]? = l[c + k * s]? := by
  induction l generalizing c k with
  | nil => simp [sliceEveryFrom]
  | cons a rest ih =>
    match c with
    | 0 =>
      match k with
      | 0 => simp [sliceEveryFrom]
      | Nat.succ k =>
        have harith : 0 + (k + 1) * s = (s - 1 + k * s) + 1 := by
          rw [Nat.succ_mul]
          omega
        rw [sliceEveryFrom, List.getElem?_cons_succ, ih (s - 1) k, harith,
          List.getElem?_cons_succ]
    | Nat.succ c =>
      have harith : (c + 1) + k * s = (c + k * s) + 1 := by omega
      rw [sliceEveryFrom, ih c k, harith, List.getElem?_cons_succ]

/-- Indexing into the Python slice `l[::s]`: element `k` is `l[k*s]`. -/
theorem pyStepSlice_getElem? (s : ℕ) (hs : 1 ≤ s) (l : List α) (k : ℕ) :
    (pyStepSlice s l)[k]? = l[k * s]? := by
  rw [pyStepSlice, sliceEveryFrom_getElem? s hs l 0 k, Nat.zero_add]

/-- Evaluation rule for `npPercentile` used on concrete inputs: once the
sorted list and the floor of the interpolation position are known, the
percentile is the corresponding linear interpolation. -/
theorem npPercentile_eval (l b : List ℚ) (q : ℚ) (i : ℕ)
    (hb : List.insertionSort (· ≤ ·) l = b)
    (hfl : ⌊q / 100 * ((b.length : ℚ) - 1)⌋ = (i : ℤ)) :
    npPercentile l q =
      b.getD i 0 + (q / 100 * ((b.length : ℚ) - 1) - (i : ℚ)) *
        (b.getD (min (i + 1) (b.length - 1)) 0 - b.getD i 0) := by
  simp only [npPercentile, hb, hfl, Int.toNat_natCast]

/-! The claims. -/

/-- C1 (amended): for every matrix (as a column list), every `skip ≥ 1` and
`ntraces` equal to the column count, `wigplot` produces one wiggle path for
each `k` with `k·skip < ntraces`, and the `k`-th path is positioned at
horizontal offset `k·skip` — the selected trace's *original* column index
(`0, 2, 4, 6, 8` for `skip = 2` on 10 traces), not its display index `k`. -/
theorem C1_wigplot_positions (cols : List (List ℚ)) (tbase : List ℚ)
    (skip : ℕ) (perc gain : ℚ) (hskip : 1 ≤ skip) :
    (∀ k : ℕ,
      ((wigplot cols tbase cols.length skip perc gain)[k]?).isSome ↔
        k * skip < cols.length) ∧
    (∀ k : ℕ, ∀ p : WigglePath,
      (wigplot cols tbase cols.length skip perc gain)[k]? = some p →
      p.baseline = ((k * skip : ℕ) : ℚ)) := by
  have hx : ∀ k : ℕ, (pyStepSlice skip (List.range cols.length))[k]? =
      (List.range cols.length)[k * skip]? :=
    fun k => pyStepSlice_getElem? skip hskip _ k
  have hw : ∀ k : ℕ, (pyStepSlice skip cols)[k]? = cols[k * skip]? :=
    fun k => pyStepSlice_getElem? skip hskip _ k
  have hmap : ∀ k : ℕ, (wigplot cols tbase cols.length skip perc gain)[k]? =
      (((pyStepSlice skip (List.range cols.length)).zip
          (pyStepSlice skip cols))[k]?).map
        (fun p => { xvals := p.2.map fun v =>
                      gain * v / wigNormFactor cols perc + (p.1 : ℚ)
                    tvals := tbase
                    baseline := (p.1 : ℚ) : WigglePath }) := by
    intro k
    rw [wigplot]
    exact (List.getElem?_map _ _ k)
  have hzip : ∀ k : ℕ, k * skip < cols.length →
      ∃ c, ((pyStepSlice skip (List.range cols.length)).zip
          (pyStepSlice skip cols))[k]? = some (k * skip, c) := by
    intro k hk
    obtain ⟨c, hc⟩ : ∃ c, cols[k * skip]? = some c :=
      ⟨_, List.getElem?_eq_getElem hk⟩
    refine ⟨c, List.getElem?_zip_eq_some.mpr ⟨?_, ?_⟩⟩
    · rw [hx k]
      exact List.getElem?_range hk
    · rw [hw k]
      exact hc
  have hzipnone : ∀ k : ℕ, ¬ k * skip < cols.length →
      ((pyStepSlice skip (List.range cols.length)).zip
          (pyStepSlice skip cols))[k]? = none := by
    intro k hk
    cases hz : ((pyStepSlice skip (List.range cols.length)).zip
        (pyStepSlice skip cols))[k]? with
    | none => rfl
    | some z =>
      exfalso
      have hz1 := (List.getElem?_zip_eq_some.mp hz).2
      rw [hw k, List.getElem?_eq_none (by omega)] at hz1
      cases hz1
  constructor
  · intro k
    rw [hmap k]
    by_cases hk : k * skip < cols.length
    · obtain ⟨c, hc⟩ := hzip k hk
      rw [hc]
      simp [hk]
    · rw [hzipnone k hk]
      simp [hk]
  · intro k p hp
    rw [hmap k] at hp
    by_cases hk : k * skip < cols.length
    · obtain ⟨c, hc⟩ := hzip k hk
      rw [hc] at hp
      simp only [Option.map_some', Option.some.injEq] at hp
      rw [← hp]
    · rw [hzipnone k hk] at hp
      cases hp

/-- C1 counterexample to the claim as stated: with `skip = 2` on a 10-trace
matrix, the five paths sit at x-positions `0, 2, 4, 6, 8` (original column
indices), not at display indices `0, 1, 2, 3, 4`. -/
theorem C1_claim_counterexample :
    ((wigplot [[0], [1], [2], [3], [4], [5], [6], [7], [8], [9]] [0] 10 2 98 1).map
        fun p => p.baseline) = [0, 2, 4, 6, 8] ∧
    ([0, 2, 4, 6, 8] : List ℚ) ≠ [0, 1, 2, 3, 4] := by
  constructor
  · norm_num [wigplot, pyStepSlice, sliceEveryFrom, List.range_succ]
  · norm_num

/-- C1 witness: the amended positional statement applied at a concrete
10-trace matrix with skip 2 — the path at display index 1 has baseline 2. -/
theorem C1_wigplot_positions_witness :
    (1 ≤ 2) ∧
    ∀ p : WigglePath,
      (wigplot [[5], [6], [7], [8], [9], [10], [11], [12], [13], [14]] [0]
        ([[5], [6], [7], [8], [9], [10], [11], [12], [13], [14]] :
          List (List ℚ)).length 2 98 1)[1]? = some p →
      p.baseline = 2 := by
  refine ⟨by norm_num, fun p hp => ?_⟩
  have hb := (C1_wigplot_positions
    [[5], [6], [7], [8], [9], [10], [11], [12], [13], [14]] [0] 2 98 1
    (by norm_num)).2 1 p hp
  simpa using hb

/-- C2 (amended): the clip value reported by `main` is the hard-coded 99th
percentile of the raw *signed* flattened matrix (not of its absolute
values); it always lies between the matrix minimum and maximum, and is
therefore negative — not non-negative — whenever every matrix entry is
negative. -/
theorem C2_clip_signed_percentile (data : List (List ℚ))
    (hne : flattenMat data ≠ []) :
    mainClipVal data = npPercentile (flattenMat data) 99 ∧
    npAmin (flattenMat data) ≤ mainClipVal data ∧
    mainClipVal data ≤ npAmax (flattenMat data) ∧
    ((∀ x ∈ flattenMat data, x < 0) → mainClipVal data < 0) := by
  have hb := npPercentile_bounds (flattenMat data) 99 hne (by norm_num)
    (by norm_num)
  refine ⟨rfl, hb.1, hb.2, fun hneg => ?_⟩
  have hmax := hneg _ (npAmax_mem _ hne)
  calc mainClipVal data ≤ npAmax (flattenMat data) := hb.2
    _ < 0 := hmax

/-- C2 counterexample to the claim as stated: on the all-negative matrix
`[[-4, -2]]` the computed clip value is `-2.02`, which is negative and
differs from the 99th percentile `3.98` of the absolute values. -/
theorem C2_claim_counterexample :
    mainClipVal [[-4, -2]] = -101 / 50 ∧
    mainClipVal [[-4, -2]] < 0 ∧
    npPercentile ((flattenMat [[-4, -2]]).map fun x => |x|) 99 = 199 / 50 ∧
    mainClipVal [[-4, -2]] ≠
      npPercentile ((flattenMat [[-4, -2]]).map fun x => |x|) 99 := by
  have h1 : mainClipVal [[-4, -2]] = -101 / 50 := by
    rw [mainClipVal,
      npPercentile_eval (flattenMat [[-4, -2]]) [-4, -2] 99 0
        (by norm_num [flattenMat, List.insertionSort, List.orderedInsert])
        (by norm_num)]
    norm_num
  have h2 : npPercentile ((flattenMat [[-4, -2]]).map fun x => |x|) 99 = 199 / 50 := by
    rw [npPercentile_eval ((flattenMat [[-4, -2]]).map fun x => |x|) [2, 4] 99 0
        (by norm_num [flattenMat, List.insertionSort, List.orderedInsert,
          abs_of_nonpos])
        (by norm_num)]
    norm_num
  refine ⟨h1, by rw [h1]; norm_num, h2, by rw [h1, h2]; norm_num⟩

/-- C2 witness: the amended statement applied to a concrete all-negative
matrix. -/
theorem C2_clip_signed_percentile_witness :
    flattenMat [[-1], [-3]] ≠ [] ∧ mainClipVal [[-1], [-3]] < 0 := by
  refine ⟨by simp [flattenMat], ?_⟩
  exact (C2_clip_signed_percentile [[-1], [-3]] (by simp [flattenMat])).2.2.2
    (by norm_num [flattenMat])

/-- Unfolding equation for the seismic width field of the layout. -/
theorem layoutPure_wsd (ntraces : ℕ) (durMs tpi ips : ℚ) :
    (layoutPure ntraces durMs tpi ips).wsd = (ntraces : ℚ) / tpi := rfl

/-- Unfolding equation for the seismic height field of the layout. -/
theorem layoutPure_hd (ntraces : ℕ) (durMs tpi ips : ℚ) :
    (layoutPure ntraces durMs tpi ips).hd = ips * durMs / 1000 := rfl

/-- Unfolding equation for the page width field of the layout. -/
theorem layoutPure_w (ntraces : ℕ) (durMs tpi ips : ℚ) :
    (layoutPure ntraces durMs tpi ips).w =
      2 * (1 / 2) + (ntraces : ℚ) / tpi + 6 + 2 * (1 / 2) + 2 * (1 / 2) / 2 := rfl

/-- Unfolding equation for the page height field of the layout. -/
theorem layoutPure_h (ntraces : ℕ) (durMs tpi ips : ℚ) :
    (layoutPure ntraces durMs tpi ips).h =
      max 10 (ips * durMs / 1000 + 1 / 2 + 1 / 2) := rfl

/-- Unfolding equation for the side-label start fraction of the layout. -/
theorem layoutPure_ssl (ntraces : ℕ) (durMs tpi ips : ℚ) :
    (layoutPure ntraces durMs tpi ips).ssl =
      (2 * (1 / 2) + (ntraces : ℚ) / tpi + 2 * (1 / 2) / 2) /
        (2 * (1 / 2) + (ntraces : ℚ) / tpi + 6 + 2 * (1 / 2) + 2 * (1 / 2) / 2) :=
  rfl

/-- Unfolding equation for the seismic panel rectangle width fraction. -/
theorem layoutPure_rect_width (ntraces : ℕ) (durMs tpi ips : ℚ) :
    (layoutPure ntraces durMs tpi ips).seismicRect.width =
      (ntraces : ℚ) / tpi /
        (2 * (1 / 2) + (ntraces : ℚ) / tpi + 6 + 2 * (1 / 2) + 2 * (1 / 2) / 2) :=
  rfl

/-- Unfolding equation for the seismic panel rectangle height fraction. -/
theorem layoutPure_rect_height (ntraces : ℕ) (durMs tpi ips : ℚ) :
    (layoutPure ntraces durMs tpi ips).seismicRect.height =
      (max 10 (ips * durMs / 1000 + 1 / 2 + 1 / 2) - 1 / 2 - 1 / 2) /
        max 10 (ips * durMs / 1000 + 1 / 2 + 1 / 2) := rfl

/-- C3: the page-geometry computation satisfies the claimed formulas — with
the source constants `margin_top = margin_bottom = 1/2`,
`margin_left = margin_right = 1`, `margin_mid = 1/2`, `side_label_width = 6`,
`min_page_height = 10` — namely `seismic_width = trace_count / tpi`,
`seismic_height = ips * duration_ms / 1000`,
`page_height = max(min_page_height, seismic_height + mt + mb)`,
`page_width = ml + seismic_width + side_label_width + mr + mm`, and
`sidelabel_start_frac = (ml + seismic_width + mm) / page_width`; in
particular `seismic_width = 10` and `seismic_height = 4` for 100 traces,
2000 ms, tpi 10, ips 2. -/
theorem C3_layout_formulas (ntraces : ℕ) (durMs tpi ips : ℚ)
    (htpi : 0 < tpi) (hips : 0 < ips) :
    (layoutPure ntraces durMs tpi ips).wsd = (ntraces : ℚ) / tpi ∧
    (layoutPure ntraces durMs tpi ips).hd = ips * durMs / 1000 ∧
    (layoutPure ntraces durMs tpi ips).h =
      max 10 ((layoutPure ntraces durMs tpi ips).hd + 1 / 2 + 1 / 2) ∧
    (layoutPure ntraces durMs tpi ips).w =
      1 + (layoutPure ntraces durMs tpi ips).wsd + 6 + 1 + 1 / 2 ∧
    (layoutPure ntraces durMs tpi ips).ssl =
      (1 + (layoutPure ntraces durMs tpi ips).wsd + 1 / 2) /
        (layoutPure ntraces durMs tpi ips).w ∧
    (layoutPure 100 2000 10 2).wsd = 10 ∧
    (layoutPure 100 2000 10 2).hd = 4 := by
  refine ⟨rfl, rfl, rfl, ?_, ?_, ?_, ?_⟩
  · rw [layoutPure_w, layoutPure_wsd]
    norm_num
  · rw [layoutPure_ssl, layoutPure_wsd, layoutPure_w]
    norm_num
  · rw [layoutPure_wsd]
    norm_num
  · rw [layoutPure_hd]
    norm_num

/-- C3 witness: the layout formulas applied at the concrete test point of the
specification. -/
theorem C3_layout_formulas_witness :
    (0 : ℚ) < 10 ∧ (0 : ℚ) < 2 ∧ (layoutPure 100 2000 10 2).wsd = 10 ∧
    (layoutPure 100 2000 10 2).hd = 4 :=
  ⟨by norm_num, by norm_num,
    (C3_layout_formulas 100 2000 10 2 (by norm_num) (by norm_num)).2.2.2.2.2.1,
    (C3_layout_formulas 100 2000 10 2 (by norm_num) (by norm_num)).2.2.2.2.2.2⟩

/-- C4 (amended): the physical aspect ratio of the seismic panel equals
`seismic_width / seismic_height` exactly whenever the page height is *not*
clamped by the 10-inch minimum (`seismic_height + margins ≥ 10`); when the
clamp engages, the panel rectangle `(h - mb - mt)/h` stretches the seismic
panel and the invariant fails (see the counterexample). -/
theorem C4_aspect_unclamped (ntraces : ℕ) (durMs tpi ips : ℚ)
    (htpi : 0 < tpi) (hhd : 0 < ips * durMs / 1000)
    (hcl : 10 ≤ ips * durMs / 1000 + 1) :
    ((layoutPure ntraces durMs tpi ips).seismicRect.width *
        (layoutPure ntraces durMs tpi ips).w) /
      ((layoutPure ntraces durMs tpi ips).seismicRect.height *
        (layoutPure ntraces durMs tpi ips).h) =
    (layoutPure ntraces durMs tpi ips).wsd /
      (layoutPure ntraces durMs tpi ips).hd := by
  have hwsd0 : (0 : ℚ) ≤ (ntraces : ℚ) / tpi :=
    div_nonneg (by positivity) (le_of_lt htpi)
  have hmax : max (10 : ℚ) (ips * durMs / 1000 + 1 / 2 + 1 / 2) =
      ips * durMs / 1000 + 1 / 2 + 1 / 2 :=
    max_eq_right (by linarith)
  have hw0 : (2 * (1 / 2 : ℚ) + (ntraces : ℚ) / tpi + 6 + 2 * (1 / 2) +
      2 * (1 / 2) / 2) ≠ 0 := by
    intro hcontra
    linarith
  have hh0 : max (10 : ℚ) (ips * durMs / 1000 + 1 / 2 + 1 / 2) ≠ 0 := by
    rw [hmax]
    intro hcontra
    linarith
  rw [layoutPure_rect_width, layoutPure_rect_height, layoutPure_w, layoutPure_h,
    layoutPure_wsd, layoutPure_hd, div_mul_cancel₀ _ hw0, div_mul_cancel₀ _ hh0,
    hmax]
  ring_nf

/-- C4 counterexample to the claim as stated: at 100 traces, 2000 ms, tpi 10,
ips 2 the page height is clamped to 10 inches and the physical aspect ratio
of the seismic panel is `10/9`, while `seismic_width / seismic_height` is
`10/4` — they differ. -/
theorem C4_claim_counterexample :
    ((layoutPure 100 2000 10 2).seismicRect.width *
        (layoutPure 100 2000 10 2).w) /
      ((layoutPure 100 2000 10 2).seismicRect.height *
        (layoutPure 100 2000 10 2).h) = 10 / 9 ∧
    (layoutPure 100 2000 10 2).wsd / (layoutPure 100 2000 10 2).hd = 5 / 2 ∧
    (10 : ℚ) / 9 ≠ 5 / 2 := by
  refine ⟨?_, ?_, by norm_num⟩
  · rw [layoutPure_rect_width, layoutPure_rect_height, layoutPure_w, layoutPure_h]
    norm_num
  · rw [layoutPure_wsd, layoutPure_hd]
    norm_num

/-- C4 witness: an unclamped instance (100 traces, 5000 ms, tpi 10, ips 2,
so the seismic height is 10 inches and the page is 11) where the aspect
ratio is preserved. -/
theorem C4_aspect_unclamped_witness :
    (0 : ℚ) < 10 ∧ (0 : ℚ) < 2 * 5000 / 1000 ∧
      (10 : ℚ) ≤ 2 * 5000 / 1000 + 1 ∧
    ((layoutPure 100 5000 10 2).seismicRect.width *
        (layoutPure 100 5000 10 2).w) /
      ((layoutPure 100 5000 10 2).seismicRect.height *
        (layoutPure 100 5000 10 2).h) =
      (layoutPure 100 5000 10 2).wsd / (layoutPure 100 5000 10 2).hd :=
  ⟨by norm_num, by norm_num, by norm_num,
    C4_aspect_unclamped 100 5000 10 2 (by norm_num) (by norm_num) (by norm_num)⟩

/-- C5 (amended): the layout computation has no explicit density guard and no
`DegenerateLayoutError` exists anywhere in the source: `tpi = 0` hits an
unguarded runtime `ZeroDivisionError` inside the division
`ntraces / cfg['tpi']`, while every positive `tpi` succeeds regardless of
`ips` — `ips ≤ 0` raises nothing (the only division involving `ips`' result,
`wsd / hd` on line 195, is an `np.float64` operation that silently produces
inf/nan). -/
theorem C5_layout_no_guard (ntraces : ℕ) (durMs tpi ips : ℚ) :
    (tpi = 0 → layoutRun ntraces durMs tpi ips = .error .zeroDivision) ∧
    (0 < tpi → layoutRun ntraces durMs tpi ips =
      .ok (layoutPure ntraces durMs tpi ips)) := by
  constructor
  · intro h0
    simp [layoutRun, h0]
  · intro hpos
    have ht0 : tpi ≠ 0 := ne_of_gt hpos
    have hwv : (layoutPure ntraces durMs tpi ips).w =
        2 * (1 / 2) + (ntraces : ℚ) / tpi + 6 + 2 * (1 / 2) + 2 * (1 / 2) / 2 :=
      rfl
    have hw : (layoutPure ntraces durMs tpi ips).w ≠ 0 := by
      rw [hwv]
      have hq : (0 : ℚ) ≤ (ntraces : ℚ) / tpi :=
        div_nonneg (by positivity) (le_of_lt hpos)
      intro hcontra
      linarith
    simp [layoutRun, ht0, hw]

/-- C5 counterexample to the claim as stated: `tpi = 0` produces the runtime
`ZeroDivisionError` fault (not a `DegenerateLayoutError`, which does not
exist in the source), and `ips = 0` — which the claim says must fail —
succeeds. -/
theorem C5_claim_counterexample :
    layoutRun 100 2000 0 2 = .error .zeroDivision ∧
    layoutRun 100 2000 10 0 = .ok (layoutPure 100 2000 10 0) := by
  constructor
  · simp [layoutRun]
  · have hw : (layoutPure 100 2000 10 0).w ≠ 0 := by
      show (2 * (1 / 2 : ℚ) + (100 : ℚ) / 10 + 6 + 2 * (1 / 2) +
        2 * (1 / 2) / 2) ≠ 0
      norm_num
    simp [layoutRun, hw]

/-- C5 witness: the amended behaviour applied at concrete density inputs. -/
theorem C5_layout_no_guard_witness :
    layoutRun 50 1000 0 1 = .error .zeroDivision ∧
    layoutRun 50 1000 5 (-1) = .ok (layoutPure 50 1000 5 (-1)) :=
  ⟨(C5_layout_no_guard 50 1000 0 1).1 rfl,
    (C5_layout_no_guard 50 1000 5 (-1)).2 (by norm_num)⟩

/-- The only fault `assignColumn` can raise is the shape-mismatch
`ValueError`. -/
theorem assignColumn_error_eq (ns : ℕ) (samples : List ℚ) (e : IngestFault)
    (h : assignColumn ns samples = .error e) : e = .valueError := by
  rw [assignColumn] at h
  split at h
  · cases h
  · split at h
    · cases h
    · injection h with h2
      exact h2.symm

/-- The matrix-filling loop never raises the `NameError` fault: its only
fault is the shape-mismatch `ValueError`. -/
theorem buildCols_error_eq (ns : ℕ) (ts : List TraceRecord) (e : IngestFault)
    (h : buildCols ns ts = .error e) : e = .valueError := by
  induction ts generalizing e with
  | nil => cases h
  | cons tr rest ih =>
    rw [buildCols] at h
    cases hc : assignColumn ns tr.samples with
    | error e2 =>
      rw [hc] at h
      injection h with h2
      rw [← h2]
      exact assignColumn_error_eq ns tr.samples e2 hc
    | ok c =>
      rw [hc] at h
      cases hr : buildCols ns rest with
      | error e2 =>
        rw [hr] at h
        injection h with h2
        rw [← h2]
        exact ih e2 hr
      | ok cs =>
        rw [hr] at h
        cases h

/-- If every trace's sample array has exactly the expected length, the
matrix-filling loop succeeds and the columns are the sample arrays. -/
theorem buildCols_ok (ns : ℕ) (ts : List TraceRecord)
    (h : ∀ tr ∈ ts, tr.samples.length = ns) :
    buildCols ns ts = .ok (ts.map fun tr => tr.samples) := by
  induction ts with
  | nil => rfl
  | cons tr rest ih =>
    have h1 : tr.samples.length = ns := h tr (List.mem_cons_self tr rest)
    have hc : assignColumn ns tr.samples = .ok tr.samples := by
      rw [assignColumn, if_pos h1]
    have h2 := ih fun x hx => h x (List.mem_cons_of_mem tr hx)
    rw [buildCols, hc, h2]
    rfl

/-- C6 (amended): ingestion performs no geometry validation at all.  An
empty trace sequence fails with the unbound-variable `NameError` runtime
fault (not an `EmptyDatasetError`, which does not exist in the source); a
nonempty sequence in which every record's sample array matches the *last*
record's header sample count succeeds — regardless of the records'
`sample_interval` values, which are never compared: the last record's
interval is silently reported. -/
theorem C6_ingest_no_validation (traces : List TraceRecord) :
    (mainIngest traces = .error .nameError ↔ traces = []) ∧
    (∀ last, traces.getLast? = some last →
      (∀ tr ∈ traces, tr.samples.length = last.nsamples) →
      mainIngest traces = .ok
        { cols := traces.map fun tr => tr.samples
          ntraces := traces.length
          nsamples := last.nsamples
          dt := last.dt
          elev := traces.map (·.elev)
          esp := traces.map (·.esp)
          ens := traces.map (·.ens)
          tsq := traces.map (·.tsq) }) := by
  constructor
  · constructor
    · intro h
      by_contra hne
      obtain ⟨last, hlast⟩ := Option.isSome_iff_exists.mp
        (List.getLast?_isSome.mpr hne)
      simp only [mainIngest, hlast] at h
      cases hb : buildCols last.nsamples traces with
      | error e =>
        rw [hb] at h
        simp only [Except.map] at h
        injection h with h2
        have he := buildCols_error_eq last.nsamples traces e hb
        rw [h2] at he
        cases he
      | ok v =>
        rw [hb] at h
        simp only [Except.map] at h
        cases h
    · intro h
      rw [h]
      rfl
  · intro last hlast hall
    have hb := buildCols_ok last.nsamples traces hall
    simp only [mainIngest, hlast, hb]
    rfl

/-- C6 counterexample to the claim as stated: two records with the same
sample count but *different* sample intervals (1000 μs vs 2000 μs) are
ingested successfully — no `InconsistentGeometryError` is raised (none
exists in the source) — and the reported interval is the last record's. -/
theorem C6_claim_counterexample :
    mainIngest [⟨2, 1000, 0, 0, 0, 0, [1, 2]⟩, ⟨2, 2000, 0, 0, 0, 0, [3, 4]⟩] =
      .ok { cols := [[1, 2], [3, 4]], ntraces := 2, nsamples := 2, dt := 2000
            elev := [0, 0], esp := [0, 0], ens := [0, 0], tsq := [0, 0] } ∧
    (1000 : ℚ) ≠ 2000 := by
  refine ⟨rfl, by norm_num⟩

/-- C6 witness: the amended behaviour applied at an empty and a one-record
sequence. -/
theorem C6_ingest_no_validation_witness :
    mainIngest [] = .error .nameError ∧
    mainIngest [⟨1, 500, 1, 2, 3, 4, [7]⟩] = .ok
      { cols := [[7]], ntraces := 1, nsamples := 1, dt := 500
        elev := [1], esp := [2], ens := [3], tsq := [4] } := by
  constructor
  · exact (C6_ingest_no_validation []).1.mpr rfl
  · exact (C6_ingest_no_validation [⟨1, 500, 1, 2, 3, 4, [7]⟩]).2
      ⟨1, 500, 1, 2, 3, 4, [7]⟩ rfl (by simp)

/-- The source's `largest = max(amax, |amin|)` (with no absolute value on
the maximum) coincides with `max(|amax|, |amin|)` whenever the minimum is at
most the maximum. -/
theorem max_abs_eq (a b : ℚ) (hba : b ≤ a) : max a |b| = max |a| |b| := by
  rcases le_or_lt 0 a with h | h
  · rw [abs_of_nonneg h]
  · have hb : b < 0 := lt_of_le_of_lt hba h
    have h1 : (0 : ℚ) < -b := by linarith
    rw [abs_of_neg h, abs_of_neg hb, max_eq_right (by linarith : a ≤ -b),
      max_eq_right (by linarith : -a ≤ -b)]

/-- C7 (amended): on a nonempty matrix the histogram's `largest` — computed
in the source as `max(amax, |amin|)`, without an absolute value on the
maximum — nevertheless equals `max(|amax|, |amin|)`; and whenever `largest`
and the locally recomputed signed 99th-percentile clip value are nonzero,
the bin count is `int(100.0 / (clip_val / largest))` — Python `int`
truncation toward zero with *no* minimum clamp (it can be negative, see the
counterexample) — and the x-limits are `(-clip_val, clip_val)`. -/
theorem C7_histogram_formulas (data : List (List ℚ))
    (hne : flattenMat data ≠ []) :
    max (npAmax (flattenMat data)) |npAmin (flattenMat data)| =
      max |npAmax (flattenMat data)| |npAmin (flattenMat data)| ∧
    (max (npAmax (flattenMat data)) |npAmin (flattenMat data)| ≠ 0 →
      npPercentile (flattenMat data) 99 ≠ 0 →
      plot_histogram data = .ok
        { bins := truncQ (100 / (npPercentile (flattenMat data) 99 /
            max (npAmax (flattenMat data)) |npAmin (flattenMat data)|))
          xlim := (-npPercentile (flattenMat data) 99,
                   npPercentile (flattenMat data) 99) }) := by
  constructor
  · exact max_abs_eq _ _ (npAmin_le_npAmax _ hne)
  · intro hL hC
    simp only [plot_histogram]
    rw [if_neg hne, if_neg hL, if_neg hC]

/-- C7 counterexample to the claim as stated: on the matrix `[[-100, 1/2]]`
the code's bin count is `-19801` (truncation of `100/(clip/largest)` =
`-19801.98…`), while the claim's `round(...)` clamped to a minimum of 1
yields `1` — they differ (and the unclamped rounding `-19802` differs from
the truncation too). -/
theorem C7_claim_counterexample :
    plot_histogram [[-100, 1 / 2]] =
      .ok { bins := -19801, xlim := (101 / 200, -101 / 200) } ∧
    max (1 : ℤ) (round ((100 : ℚ) / (npPercentile (flattenMat [[-100, 1 / 2]]) 99 /
      max (npAmax (flattenMat [[-100, 1 / 2]]))
        |npAmin (flattenMat [[-100, 1 / 2]])|))) = 1 ∧
    round ((100 : ℚ) / (npPercentile (flattenMat [[-100, 1 / 2]]) 99 /
      max (npAmax (flattenMat [[-100, 1 / 2]]))
        |npAmin (flattenMat [[-100, 1 / 2]])|)) = -19802 ∧
    ((-19801 : ℤ) ≠ 1) := by
  have hflat : flattenMat [[-100, 1 / 2]] = [-100, 1 / 2] := by
    simp [flattenMat]
  have hclip : npPercentile (flattenMat [[-100, 1 / 2]]) 99 = -101 / 200 := by
    rw [npPercentile_eval (flattenMat [[-100, 1 / 2]]) [-100, 1 / 2] 99 0
      (by rw [hflat]; norm_num [List.insertionSort, List.orderedInsert])
      (by norm_num)]
    norm_num
  have hL : max (npAmax (flattenMat [[-100, 1 / 2]]))
      |npAmin (flattenMat [[-100, 1 / 2]])| = 100 := by
    rw [hflat]
    show max ([(1 : ℚ) / 2].foldl max (-100)) |[(1 : ℚ) / 2].foldl min (-100)| = 100
    norm_num [max_def, min_def]
  refine ⟨?_, ?_, ?_, by norm_num⟩
  · simp only [plot_histogram]
    rw [if_neg (by rw [hflat]; simp), if_neg (by rw [hL]; norm_num),
      if_neg (by rw [hclip]; norm_num), hclip, hL]
    have hceil : (⌈-((2000000 : ℚ) / 101)⌉ : ℤ) = -19801 := by
      rw [Int.ceil_eq_iff]
      norm_num
    norm_num [truncQ, hceil]
  · rw [hclip, hL]
    norm_num [round_eq]
  · rw [hclip, hL]
    norm_num [round_eq]

/-- C7 witness: the amended formulas applied at the concrete matrix
`[[1, 2]]` (largest `2`, clip `1.99`). -/
theorem C7_histogram_formulas_witness :
    flattenMat [[1, 2]] ≠ [] ∧
    max (npAmax (flattenMat [[1, 2]])) |npAmin (flattenMat [[1, 2]])| ≠ 0 ∧
    npPercentile (flattenMat [[1, 2]]) 99 ≠ 0 ∧
    plot_histogram [[1, 2]] = .ok
      { bins := truncQ (100 / (npPercentile (flattenMat [[1, 2]]) 99 /
          max (npAmax (flattenMat [[1, 2]])) |npAmin (flattenMat [[1, 2]])|))
        xlim := (-npPercentile (flattenMat [[1, 2]]) 99,
                 npPercentile (flattenMat [[1, 2]]) 99) } := by
  have hflat : flattenMat [[1, 2]] = [1, 2] := by simp [flattenMat]
  have hclip : npPercentile (flattenMat [[1, 2]]) 99 = 199 / 100 := by
    rw [npPercentile_eval (flattenMat [[1, 2]]) [1, 2] 99 0
      (by rw [hflat]; norm_num [List.insertionSort, List.orderedInsert])
      (by norm_num)]
    norm_num
  have hL : max (npAmax (flattenMat [[1, 2]]))
      |npAmin (flattenMat [[1, 2]])| = 2 := by
    rw [hflat]
    show max ([(2 : ℚ)].foldl max 1) |[(2 : ℚ)].foldl min 1| = 2
    norm_num [max_def, min_def]
  have h1 : flattenMat [[1, 2]] ≠ [] := by rw [hflat]; simp
  have h2 : max (npAmax (flattenMat [[1, 2]])) |npAmin (flattenMat [[1, 2]])| ≠ 0 := by
    rw [hL]
    norm_num
  have h3 : npPercentile (flattenMat [[1, 2]]) 99 ≠ 0 := by
    rw [hclip]
    norm_num
  exact ⟨h1, h2, h3, (C7_histogram_formulas [[1, 2]] h1).2 h2 h3⟩

/-- C8 (amended): an all-zero matrix makes `largest = 0` and `clip_val = 0`,
so `clip_val / largest` is the numpy `nan` and `int(nan)` raises the runtime
`ValueError` — an unguarded fault arising inside the arithmetic, not an
explicit pre-check, and not a `DegenerateHistogramError` (no such exception
exists in the source). -/
theorem C8_allzero_runtime_fault (data : List (List ℚ))
    (hne : flattenMat data ≠ []) (hz : ∀ x ∈ flattenMat data, x = 0) :
    plot_histogram data = .error .valueErrorNaN := by
  have hmax : npAmax (flattenMat data) = 0 := hz _ (npAmax_mem _ hne)
  have hmin : npAmin (flattenMat data) = 0 := hz _ (npAmin_mem _ hne)
  have hL : max (npAmax (flattenMat data)) |npAmin (flattenMat data)| = 0 := by
    rw [hmax, hmin]
    norm_num
  have hb := npPercentile_bounds (flattenMat data) 99 hne (by norm_num)
    (by norm_num)
  have hclip : npPercentile (flattenMat data) 99 = 0 := by
    have h1 := hb.1
    have h2 := hb.2
    rw [hmin] at h1
    rw [hmax] at h2
    linarith
  simp only [plot_histogram]
  rw [if_neg hne, if_pos hL, if_pos hclip]

/-- C8 counterexample to the claim as stated: the failure on the all-zero
matrix `[[0, 0]]` is the runtime `ValueError` fault from `int(nan)` — the
fault taxonomy of the embedding has no `DegenerateHistogramError` because
the source defines none and performs no explicit check. -/
theorem C8_claim_counterexample :
    plot_histogram [[0, 0]] = .error .valueErrorNaN := by
  have hflat : flattenMat [[0, 0]] = [0, 0] := by simp [flattenMat]
  have hclip : npPercentile (flattenMat [[0, 0]]) 99 = 0 := by
    rw [npPercentile_eval (flattenMat [[0, 0]]) [0, 0] 99 0
      (by rw [hflat]; norm_num [List.insertionSort, List.orderedInsert])
      (by norm_num)]
    norm_num
  have hL : max (npAmax (flattenMat [[0, 0]]))
      |npAmin (flattenMat [[0, 0]])| = 0 := by
    rw [hflat]
    show max ([(0 : ℚ)].foldl max 0) |[(0 : ℚ)].foldl min 0| = 0
    norm_num [max_def, min_def]
  simp only [plot_histogram]
  rw [if_neg (by rw [hflat]; simp), if_pos hL, if_pos hclip]

/-- C8 witness: the amended statement applied at a concrete all-zero
matrix. -/
theorem C8_allzero_runtime_fault_witness :
    flattenMat [[0], [0, 0]] ≠ [] ∧ (∀ x ∈ flattenMat [[0], [0, 0]], x = 0) ∧
    plot_histogram [[0], [0, 0]] = .error .valueErrorNaN := by
  have h1 : flattenMat [[0], [0, 0]] ≠ [] := by simp [flattenMat]
  have h2 : ∀ x ∈ flattenMat [[0], [0, 0]], x = 0 := by
    intro x hx
    simp [flattenMat] at hx
    exact hx
  exact ⟨h1, h2, C8_allzero_runtime_fault [[0], [0, 0]] h1 h2⟩

/-- C9 (amended): for every matrix with at least two traces, the spectrum is
taken from the second trace (column index 1) — the output depends only on
that column — the frequency axis is the first quarter of
`fftfreq(n, dt/1e6)` (so the retained bin `k` carries frequency
`k / (n · dt/1e6)`), the power series is `log10` of the DFT magnitudes of
that trace over the same quarter, and a zero magnitude produces the silent
numpy `-inf` (modelled as `⊥`), *not* a failure: no `NonPositiveSpectrumError`
or epsilon floor exists in the source. -/
theorem C9_spectrum (data : List (List ℚ)) (dt : ℚ) (h2 : 2 ≤ data.length) :
    (plot_spectrum data dt).freqs.length = (data.getD 1 []).length / 4 ∧
    (plot_spectrum data dt).power.length = (data.getD 1 []).length / 4 ∧
    (∀ k : ℕ, k < (data.getD 1 []).length / 4 →
      (plot_spectrum data dt).freqs[k]? =
        some ((k : ℚ) / ((data.getD 1 []).length * (dt / 10 ^ 6)))) ∧
    (∀ k : ℕ, k < (data.getD 1 []).length / 4 →
      (plot_spectrum data dt).power[k]? =
        some (npLog10 (Complex.abs (dftEntry (data.getD 1 []) k)))) ∧
    (∀ k : ℕ, k < (data.getD 1 []).length / 4 →
      Complex.abs (dftEntry (data.getD 1 []) k) = 0 →
      (plot_spectrum data dt).power[k]? = some ⊥) ∧
    (∀ data2 : List (List ℚ), data2.getD 1 [] = data.getD 1 [] →
      plot_spectrum data2 dt = plot_spectrum data dt) := by
  have hflen : ∀ m : ℕ, ∀ d : ℚ, (npFftfreq m d).length = m := by
    intro m d
    simp [npFftfreq]
  have hdlen : ∀ x : List ℚ, (dft x).length = x.length := by
    intro x
    simp [dft]
  have hfreqs : (plot_spectrum data dt).freqs =
      (npFftfreq (data.getD 1 []).length (dt / 10 ^ 6)).take
        ((data.getD 1 []).length / 4) := by
    simp only [plot_spectrum]
    rw [hflen]
  have hpower : (plot_spectrum data dt).power =
      (((dft (data.getD 1 [])).map (fun z => Complex.abs z)).take
        ((data.getD 1 []).length / 4)).map npLog10 := by
    simp only [plot_spectrum]
    rw [hflen]
  have hdiv4 : (data.getD 1 []).length / 4 ≤ (data.getD 1 []).length :=
    Nat.div_le_self _ 4
  have hpow : ∀ k : ℕ, k < (data.getD 1 []).length / 4 →
      (plot_spectrum data dt).power[k]? =
        some (npLog10 (Complex.abs (dftEntry (data.getD 1 []) k))) := by
    intro k hk
    have hkn : k < (data.getD 1 []).length := lt_of_lt_of_le hk hdiv4
    rw [hpower, List.getElem?_map, List.getElem?_take, if_pos hk,
      List.getElem?_map, dft, List.getElem?_map, List.getElem?_range hkn]
    rfl
  refine ⟨?_, ?_, ?_, hpow, ?_, ?_⟩
  · rw [hfreqs, List.length_take, hflen]
    omega
  · rw [hpower, List.length_map, List.length_take, List.length_map, hdlen]
    omega
  · intro k hk
    have hkn : k < (data.getD 1 []).length := lt_of_lt_of_le hk hdiv4
    have hkhalf : k < ((data.getD 1 []).length + 1) / 2 := by omega
    rw [hfreqs, List.getElem?_take, if_pos hk, npFftfreq, List.getElem?_map,
      List.getElem?_range hkn]
    simp only [Option.map_some']
    rw [if_pos hkhalf]
  · intro k hk hmag
    rw [hpow k hk, hmag]
    simp [npLog10]
  · intro data2 hdd
    simp only [plot_spectrum, hdd]

/-- C9 counterexample to the claim as stated: on a dataset whose second
trace is `[1, -1, 1, -1, 1, -1, 1, -1]` (8 samples summing to zero), the
DFT magnitude at bin 0 is exactly zero and the plotted log-power value is
the silent `-inf` (`⊥`) — no failure of any kind is raised, contradicting
the claimed `NonPositiveSpectrumError` with epsilon floor. -/
theorem C9_claim_counterexample :
    (plot_spectrum [[0, 0, 0, 0, 0, 0, 0, 0], [1, -1, 1, -1, 1, -1, 1, -1]]
        1000).power[0]? = some ⊥ := by
  have hd0 : dftEntry [1, -1, 1, -1, 1, -1, 1, -1] 0 = 0 := by
    rw [dftEntry]
    norm_num [Finset.sum_range_succ, Complex.exp_zero]
  have htr : ([[0, 0, 0, 0, 0, 0, 0, 0], [1, -1, 1, -1, 1, -1, 1, -1]] :
      List (List ℚ)).getD 1 [] = [1, -1, 1, -1, 1, -1, 1, -1] := rfl
  have hflen : (npFftfreq (([1, -1, 1, -1, 1, -1, 1, -1] : List ℚ).length)
      ((1000 : ℚ) / 10 ^ 6)).length = 8 := by
    simp [npFftfreq]
  simp only [plot_spectrum, htr, hflen]
  rw [List.getElem?_map, List.getElem?_take, if_pos (by norm_num),
    List.getElem?_map, dft, List.getElem?_map,
    List.getElem?_range (by norm_num : 0 < ([1, -1, 1, -1, 1, -1, 1, -1] :
      List ℚ).length)]
  simp only [Option.map_some', hd0, map_zero]
  rw [show npLog10 0 = ⊥ from by simp [npLog10]]

/-- C9 witness: the amended statement applied at a concrete two-trace
4-sample dataset, giving a one-bin truncated frequency axis. -/
theorem C9_spectrum_witness :
    2 ≤ ([[0, 0, 0, 0], [1, 2, 3, 4]] : List (List ℚ)).length ∧
    (plot_spectrum [[0, 0, 0, 0], [1, 2, 3, 4]] 1000).freqs.length = 1 := by
  refine ⟨by norm_num, ?_⟩
  have h := (C9_spectrum [[0, 0, 0, 0], [1, 2, 3, 4]] 1000 (by norm_num)).1
  simpa using h

/-- C10: the normalization factor used by the wiggle call in `main` is
`wigplot`'s own 98th percentile of the raw signed data (its default
`perc = 98.0`); `main` passes neither its 99th-percentile `clip_val` nor any
percentile, so whenever the two percentiles differ, the factor that scales
the displayed traces differs from the reported clip value (and with a
nonzero sample and nonzero factors, the actually plotted abscissa
differs). -/
theorem C10_wiggle_norm_mismatch (data : List (List ℚ)) (tbase : List ℚ)
    (ntraces skip : ℕ) (gain : ℚ)
    (hne : npPercentile (flattenMat data) 98 ≠
      npPercentile (flattenMat data) 99) :
    mainWiggleCall data tbase ntraces skip gain =
      wigplot data tbase ntraces skip 98 gain ∧
    wigNormFactor data 98 ≠ mainClipVal data ∧
    (∀ v x : ℚ, gain * v ≠ 0 → wigNormFactor data 98 ≠ 0 →
      mainClipVal data ≠ 0 →
      gain * v / wigNormFactor data 98 + x ≠
        gain * v / mainClipVal data + x) := by
  refine ⟨rfl, hne, fun v x hv h98 h99 heq => ?_⟩
  have heq2 : gain * v / wigNormFactor data 98 =
      gain * v / mainClipVal data := by linarith
  rw [div_eq_div_iff h98 h99] at heq2
  exact hne (mul_left_cancel₀ hv heq2).symm

/-- C10 witness: on the matrix `[[0], [100]]` the 98th percentile is 98 and
the 99th is 99, so the wiggle normalization factor differs from the
reported clip value. -/
theorem C10_wiggle_norm_mismatch_witness :
    npPercentile (flattenMat [[0], [100]]) 98 ≠
      npPercentile (flattenMat [[0], [100]]) 99 ∧
    wigNormFactor [[0], [100]] 98 ≠ mainClipVal [[0], [100]] := by
  have hflat : flattenMat [[0], [100]] = [0, 100] := by simp [flattenMat]
  have h98 : npPercentile (flattenMat [[0], [100]]) 98 = 98 := by
    rw [npPercentile_eval (flattenMat [[0], [100]]) [0, 100] 98 0
      (by rw [hflat]; norm_num [List.insertionSort, List.orderedInsert])
      (by norm_num)]
    norm_num
  have h99 : npPercentile (flattenMat [[0], [100]]) 99 = 99 := by
    rw [npPercentile_eval (flattenMat [[0], [100]]) [0, 100] 99 0
      (by rw [hflat]; norm_num [List.insertionSort, List.orderedInsert])
      (by norm_num)]
    norm_num
  have hne : npPercentile (flattenMat [[0], [100]]) 98 ≠
      npPercentile (flattenMat [[0], [100]]) 99 := by
    rw [h98, h99]
    norm_num
  exact ⟨hne, (C10_wiggle_norm_mismatch [[0], [100]] [] 2 1 1 hne).2.1⟩

end Seisplot
